import Mathlib

/-!
Verification development for the team-rebalancing optimizer
(`UnifiedProcessor`, Phase 2) of this repository.

The optimizer state is the pair of a student record mapping
(`students : name → Student`) and a team membership mapping
(`teams : name → list of member names`), both modelled as association
lists in declaration order (Python dicts preserve insertion order).
Targets (`target_ep3`, `target_gender`, `target_greek`) are passed as
parameters; the program initialises them to 3, 4, 4.

Every definition below is a direct transcription of the corresponding
method of `UnifiedProcessor` in `src/app.py`; source names are kept
(with the leading underscore dropped where the method is private).
-/

/-- The `Student` dataclass used by the optimizer (`src/app.py`, class
`Student`): name, performance score (`choice`), gender, Greek-knowledge
tag, declared friend names and the lock flag. -/
structure Student where
  name : String
  choice : Int
  gender : String
  greek_knowledge : String
  friends : List String
  locked : Bool
deriving DecidableEq, Repr

/-- The `self.teams` mapping: team name to current member-name list,
as an association list in insertion order. -/
abbrev Teams := List (String × List String)

/-- The `self.students` mapping: student name to record. -/
abbrev Students := List (String × Student)

/-- Dictionary lookup `self.students[name]`, returning `none` when the
name is absent (the code always guards lookups with `name in self.students`). -/
def findStudent (students : Students) (n : String) : Option Student :=
  (students.find? (fun p => p.1 == n)).map (fun p => p.2)

/-- Dictionary lookup `self.teams[team_name]`; the optimizer only ever
uses keys present in the mapping, so the `[]` default is unreachable there. -/
def getTeam (teams : Teams) (t : String) : List String :=
  ((teams.find? (fun p => p.1 == t)).map (fun p => p.2)).getD []

/-- One team's counter record, as built by `_get_team_stats`. -/
structure TeamStats where
  boys : Int
  girls : Int
  greek_yes : Int
  greek_no : Int
  ep1 : Int
  ep2 : Int
  ep3 : Int
deriving DecidableEq, Repr

/-- The per-student counting step in `_get_team_stats`: gender buckets
(`Α`/`Κ` via if/elif), Greek knowledge (accepting the Greek `Ν`/`Ο` and
Latin `N`/`O` variants), and the three performance levels. -/
def countStudent (s : Student) (st : TeamStats) : TeamStats :=
  { st with
    boys := st.boys + (if s.gender == "Α" then 1 else 0),
    girls := st.girls +
      (if s.gender == "Α" then (0 : Int) else if s.gender == "Κ" then 1 else 0),
    greek_yes := st.greek_yes +
      (if s.greek_knowledge == "Ν" || s.greek_knowledge == "N" then 1 else 0),
    greek_no := st.greek_no +
      (if s.greek_knowledge == "Ν" || s.greek_knowledge == "N" then (0 : Int)
       else if s.greek_knowledge == "Ο" || s.greek_knowledge == "O" then 1 else 0),
    ep1 := st.ep1 + (if s.choice == 1 then 1 else 0),
    ep2 := st.ep2 +
      (if s.choice == 1 then (0 : Int) else if s.choice == 2 then 1 else 0),
    ep3 := st.ep3 +
      (if s.choice == 1 then (0 : Int) else if s.choice == 2 then 0
       else if s.choice == 3 then 1 else 0) }

/-- Counters of one team's member list; members absent from the student
mapping are skipped (`if name not in self.students: continue`). -/
def teamStats (students : Students) (names : List String) : TeamStats :=
  names.foldl
    (fun st n =>
      match findStudent students n with
      | none => st
      | some s => countStudent s st)
    ⟨0, 0, 0, 0, 0, 0, 0⟩

/-- `_get_team_stats`: per-team counters, in team declaration order. -/
def get_team_stats (students : Students) (teams : Teams) : List (String × TeamStats) :=
  teams.map (fun p => (p.1, teamStats students p.2))

/-- The four spread values returned by `calculate_spreads`. -/
structure Spreads where
  ep3 : Int
  boys : Int
  girls : Int
  greek_yes : Int
deriving DecidableEq, Repr

/-- Python `max` over a value list (first element as seed). -/
def listMaxI : List Int → Int
  | [] => 0
  | h :: t => t.foldl max h

/-- Python `min` over a value list (first element as seed). -/
def listMinI : List Int → Int
  | [] => 0
  | h :: t => t.foldl min h

/-- `max(vals) - min(vals)` for one counter field across all teams. -/
def spreadOf (f : TeamStats → Int) (stats : List (String × TeamStats)) : Int :=
  listMaxI (stats.map (fun p => f p.2)) - listMinI (stats.map (fun p => f p.2))

/-- `calculate_spreads`: the four max-minus-min spreads, all 0 when the
team mapping is empty. -/
def calculate_spreads (students : Students) (teams : Teams) : Spreads :=
  let stats := get_team_stats students teams
  if stats.isEmpty then ⟨0, 0, 0, 0⟩
  else
    ⟨spreadOf (fun st => st.ep3) stats,
     spreadOf (fun st => st.boys) stats,
     spreadOf (fun st => st.girls) stats,
     spreadOf (fun st => st.greek_yes) stats⟩

/-- The improvement record built by `_calc_asymmetric_improvement`. -/
structure Improvement where
  improves : Bool
  delta_ep3 : Int
  delta_boys : Int
  delta_girls : Int
  delta_greek : Int
  ep3_before : Int
  ep3_after : Int
deriving DecidableEq, Repr

/-- One hypothetical adjustment pass of `_calc_asymmetric_improvement`
for a single student: add `sign` to the team's `ep3` count when the
student has performance 3, to the matching gender count, and to
`greek_yes` when the tag is `Ν` or `N`. -/
def applyDelta (s : Student) (sign : Int) (st : TeamStats) : TeamStats :=
  { st with
    ep3 := st.ep3 + (if s.choice == 3 then sign else 0),
    boys := st.boys + (if s.gender == "Α" then sign else 0),
    girls := st.girls +
      (if s.gender == "Α" then (0 : Int) else if s.gender == "Κ" then sign else 0),
    greek_yes := st.greek_yes +
      (if s.greek_knowledge == "Ν" || s.greek_knowledge == "N" then sign else 0) }

/-- Update of a single association-list entry: apply `f` when the key
matches `team`, keep the entry otherwise. -/
def adjEntry (team : String) (f : TeamStats → TeamStats)
    (p : String × TeamStats) : String × TeamStats :=
  if p.1 == team then (p.1, f p.2) else p

/-- In-place update `stats_after[team] := f stats_after[team]` on the
per-team counter list. -/
def adjStats (team : String) (f : TeamStats → TeamStats)
    (stats : List (String × TeamStats)) : List (String × TeamStats) :=
  stats.map (adjEntry team f)

/-- One of the four name loops of `_calc_asymmetric_improvement`:
adjust `team` by `sign` for each listed student present in the mapping. -/
def adjustPass (students : Students) (team : String) (sign : Int)
    (names : List String) (stats : List (String × TeamStats)) :
    List (String × TeamStats) :=
  names.foldl
    (fun acc n =>
      match findStudent students n with
      | none => acc
      | some s => adjStats team (applyDelta s sign) acc)
    stats

/-- `_calc_asymmetric_improvement`: simulate the swap on copied stats
(out-names leave the high team and enter the low team, in-names the
reverse), compute the four spread deltas across all teams, and set the
`improves` flag. -/
def calc_asymmetric_improvement (students : Students) (teams : Teams)
    (team_high : String) (names_out : List String)
    (team_low : String) (names_in : List String) : Improvement :=
  let stats_before := get_team_stats students teams
  let stats_after :=
    adjustPass students team_low 1 names_out
      (adjustPass students team_low (-1) names_in
        (adjustPass students team_high 1 names_in
          (adjustPass students team_high (-1) names_out stats_before)))
  let ep3_before := spreadOf (fun st => st.ep3) stats_before
  let ep3_after := spreadOf (fun st => st.ep3) stats_after
  let boys_before := spreadOf (fun st => st.boys) stats_before
  let boys_after := spreadOf (fun st => st.boys) stats_after
  let girls_before := spreadOf (fun st => st.girls) stats_before
  let girls_after := spreadOf (fun st => st.girls) stats_after
  let greek_before := spreadOf (fun st => st.greek_yes) stats_before
  let greek_after := spreadOf (fun st => st.greek_yes) stats_after
  let delta_ep3 := ep3_before - ep3_after
  let delta_boys := boys_before - boys_after
  let delta_girls := girls_before - girls_after
  let delta_greek := greek_before - greek_after
  { improves :=
      decide (0 < delta_ep3) ||
        (decide (delta_ep3 = 0) &&
          (decide (0 < delta_boys) || decide (0 < delta_girls) ||
            decide (0 < delta_greek))),
    delta_ep3 := delta_ep3,
    delta_boys := delta_boys,
    delta_girls := delta_girls,
    delta_greek := delta_greek,
    ep3_before := ep3_before,
    ep3_after := ep3_after }

/-- `_get_solos_with_ep3`: unlocked performance-3 members of the team
none of whose OWN declared friends is in the team's member list. -/
def get_solos_with_ep3 (students : Students) (teams : Teams)
    (team_name : String) : List (String × Student) :=
  let student_names := getTeam teams team_name
  student_names.filterMap (fun n =>
    match findStudent students n with
    | none => none
    | some s =>
      if s.locked || !(s.choice == 3) then none
      else if s.friends.any (fun f => student_names.contains f) then none
      else some (n, s))

/-- `_get_solos_without_ep3`: unlocked members with performance other
than 3, none of whose own declared friends is in the team. -/
def get_solos_without_ep3 (students : Students) (teams : Teams)
    (team_name : String) : List (String × Student) :=
  let student_names := getTeam teams team_name
  student_names.filterMap (fun n =>
    match findStudent students n with
    | none => none
    | some s =>
      if s.locked || s.choice == 3 then none
      else if s.friends.any (fun f => student_names.contains f) then none
      else some (n, s))

/-- One co-located friend pair produced by `_get_pairs_with_ep3` /
`_get_pairs_without_ep3`. -/
structure FriendPair where
  name_a : String
  name_b : String
  student_a : Student
  student_b : Student
  ep_combo : String
deriving DecidableEq, Repr

/-- The inner `for name_b in student_names` loop of the pair scanners:
first unprocessed, distinct, unlocked teammate connected to `name_a` by
a friend link in either direction and satisfying `cond` (the performance
condition of the respective scanner). A teammate whose friendship holds
but fails `cond` is skipped without ending the scan, exactly as the
source only breaks inside the nested condition. -/
def findPartner (students : Students) (cond : Student → Student → Bool)
    (processed : List String) (name_a : String) (sa : Student) :
    List String → Option (String × Student)
  | [] => none
  | name_b :: rest =>
    if name_b == name_a || processed.contains name_b then
      findPartner students cond processed name_a sa rest
    else
      match findStudent students name_b with
      | none => findPartner students cond processed name_a sa rest
      | some sb =>
        if sb.locked then findPartner students cond processed name_a sa rest
        else if (sa.friends.contains name_b || sb.friends.contains name_a) &&
            cond sa sb then
          some (name_b, sb)
        else findPartner students cond processed name_a sa rest

/-- The outer loop of the pair scanners, threading the `processed` set. -/
def getPairsGo (students : Students) (cond : Student → Student → Bool)
    (student_names : List String) :
    List String → List String → List FriendPair
  | [], _ => []
  | name_a :: rest, processed =>
    if processed.contains name_a then
      getPairsGo students cond student_names rest processed
    else
      match findStudent students name_a with
      | none => getPairsGo students cond student_names rest processed
      | some sa =>
        if sa.locked then getPairsGo students cond student_names rest processed
        else
          match findPartner students cond processed name_a sa student_names with
          | none => getPairsGo students cond student_names rest processed
          | some (name_b, sb) =>
            ⟨name_a, name_b, sa, sb,
              toString sa.choice ++ "," ++ toString sb.choice⟩ ::
              getPairsGo students cond student_names rest
                (name_b :: name_a :: processed)

/-- `_get_pairs_with_ep3`: co-located unlocked friend pairs where at
least one member has performance 3. -/
def get_pairs_with_ep3 (students : Students) (teams : Teams)
    (team_name : String) : List FriendPair :=
  let student_names := getTeam teams team_name
  getPairsGo students (fun a b => a.choice == 3 || b.choice == 3)
    student_names student_names []

/-- `_get_pairs_without_ep3`: co-located unlocked friend pairs where
neither member has performance 3. -/
def get_pairs_without_ep3 (students : Students) (teams : Teams)
    (team_name : String) : List FriendPair :=
  let student_names := getTeam teams team_name
  getPairsGo students (fun a b => !(a.choice == 3) && !(b.choice == 3))
    student_names student_names []

/-- The swap-candidate dictionary built by `_generate_asymmetric_swaps`. -/
structure Swap where
  type : String
  from_team : String
  students_out : List String
  to_team : String
  students_in : List String
  improvement : Improvement
  priority : Nat
deriving DecidableEq, Repr

/-- `_generate_asymmetric_swaps`: the three candidate tiers for the
given max/min team pair, each candidate scored immediately and kept
only when its `improves` flag is set. -/
def generate_asymmetric_swaps (students : Students) (teams : Teams)
    (max_team min_team : String) : List Swap :=
  let max_solos_ep3 := get_solos_with_ep3 students teams max_team
  let max_pairs_ep3 := get_pairs_with_ep3 students teams max_team
  let min_solos_non_ep3 := get_solos_without_ep3 students teams min_team
  let min_pairs_non_ep3 := get_pairs_without_ep3 students teams min_team
  let p1 := max_solos_ep3.flatMap (fun solo_max =>
    min_solos_non_ep3.flatMap (fun solo_min =>
      if solo_max.2.gender == solo_min.2.gender &&
          solo_max.2.greek_knowledge == solo_min.2.greek_knowledge then
        let improvement := calc_asymmetric_improvement students teams
          max_team [solo_max.1] min_team [solo_min.1]
        if improvement.improves then
          [⟨"Solo(ep3)↔Solo(ep1/2)-P1", max_team, [solo_max.1], min_team,
            [solo_min.1], improvement, 1⟩]
        else []
      else []))
  let p2 := max_pairs_ep3.flatMap (fun pair_max =>
    min_pairs_non_ep3.flatMap (fun pair_min =>
      if pair_max.student_a.gender == pair_min.student_a.gender &&
          pair_max.student_b.gender == pair_min.student_b.gender &&
          pair_max.student_a.greek_knowledge == pair_min.student_a.greek_knowledge &&
          pair_max.student_b.greek_knowledge == pair_min.student_b.greek_knowledge then
        let improvement := calc_asymmetric_improvement students teams
          max_team [pair_max.name_a, pair_max.name_b] min_team
          [pair_min.name_a, pair_min.name_b]
        if improvement.improves then
          [⟨"Pair(ep3+X)↔Pair(ep1/2)-P2", max_team,
            [pair_max.name_a, pair_max.name_b], min_team,
            [pair_min.name_a, pair_min.name_b], improvement, 2⟩]
        else []
      else []))
  let p3 := max_solos_ep3.flatMap (fun solo_max =>
    min_solos_non_ep3.flatMap (fun solo_min =>
      if solo_max.2.gender == solo_min.2.gender then
        let improvement := calc_asymmetric_improvement students teams
          max_team [solo_max.1] min_team [solo_min.1]
        if improvement.improves then
          [⟨"Solo(ep3)↔Solo(ep1/2)-P3", max_team, [solo_max.1], min_team,
            [solo_min.1], improvement, 3⟩]
        else []
      else []))
  p1 ++ p2 ++ p3

/-- The sort order used by `_select_best_swap`: ascending lexicographic
comparison of the Python key tuple `(-delta_ep3, -(delta_boys +
delta_girls), -delta_greek, priority)`. -/
def swapLe (x y : Swap) : Bool :=
  let a1 := -x.improvement.delta_ep3
  let b1 := -y.improvement.delta_ep3
  let a2 := -(x.improvement.delta_boys + x.improvement.delta_girls)
  let b2 := -(y.improvement.delta_boys + y.improvement.delta_girls)
  let a3 := -x.improvement.delta_greek
  let b3 := -y.improvement.delta_greek
  decide (a1 < b1) ||
    (decide (a1 = b1) &&
      (decide (a2 < b2) ||
        (decide (a2 = b2) &&
          (decide (a3 < b3) ||
            (decide (a3 = b3) && decide (x.priority ≤ y.priority))))))

/-- `_select_best_swap`: `None` on an empty pool, otherwise the first
element after the stable ascending sort by the key tuple (Python's
`list.sort` is stable; `List.mergeSort` is its stable counterpart). -/
def select_best_swap (swaps : List Swap) : Option Swap :=
  if swaps.isEmpty then none
  else (swaps.mergeSort swapLe).head?

/-- In-place update of one team's member list inside `self.teams`. -/
def updTeam (t : String) (f : List String → List String) (teams : Teams) :
    Teams :=
  teams.map (fun p => if p.1 == t then (p.1, f p.2) else p)

/-- `_apply_swap`: remove the outgoing names from the source team and
the incoming names from the destination team (each guarded by a
membership test, i.e. erase-first-occurrence-if-present), then append
the outgoing names to the destination and the incoming names to the
source. -/
def apply_swap (teams : Teams) (sw : Swap) : Teams :=
  let ts1 := sw.students_out.foldl
    (fun acc n => updTeam sw.from_team (fun l => l.erase n) acc) teams
  let ts2 := sw.students_in.foldl
    (fun acc n => updTeam sw.to_team (fun l => l.erase n) acc) ts1
  let ts3 := updTeam sw.to_team (fun l => l ++ sw.students_out) ts2
  updTeam sw.from_team (fun l => l ++ sw.students_in) ts3

/-- `max(ep3_counts.items(), key=...)`: first team attaining the
maximal `ep3` count, `none` on an empty mapping (where Python's `max`
would raise `ValueError`). -/
def maxByEp3 (stats : List (String × TeamStats)) : Option (String × Int) :=
  match stats with
  | [] => none
  | h :: t =>
    some (t.foldl (fun best p => if best.2 < p.2.ep3 then (p.1, p.2.ep3) else best)
      (h.1, h.2.ep3))

/-- `min(ep3_counts.items(), key=...)`: first team attaining the
minimal `ep3` count. -/
def minByEp3 (stats : List (String × TeamStats)) : Option (String × Int) :=
  match stats with
  | [] => none
  | h :: t =>
    some (t.foldl (fun best p => if p.2.ep3 < best.2 then (p.1, p.2.ep3) else best)
      (h.1, h.2.ep3))

/-- Stop labels for one run of the loop, following the state names of
the specification for the code's break points: `converged` for the two
target checks, `stuck` for an empty/undecided candidate pool,
`exhausted` for the iteration cap, and `failed` for the (unreachable)
`max()`-on-empty-mapping error path. -/
inductive LoopExit where
  | converged
  | stuck
  | exhausted
  | failed
deriving DecidableEq, Repr

/-- Outcome of one iteration body of `optimize`. -/
inductive StepResult where
  | halt (ex : LoopExit)
  | swap (best : Swap) (teams' : Teams)
deriving DecidableEq, Repr

/-- One iteration body of `optimize`: the all-four-spreads check, the
max/min `ep3` difference check, candidate generation for exactly that
team pair, selection, and application of the chosen swap. -/
def optimizeStep (students : Students) (target_ep3 target_gender target_greek : Int)
    (teams : Teams) : StepResult :=
  let spreads := calculate_spreads students teams
  if spreads.ep3 ≤ target_ep3 ∧ spreads.boys ≤ target_gender ∧
      spreads.girls ≤ target_gender ∧ spreads.greek_yes ≤ target_greek then
    .halt .converged
  else
    let stats := get_team_stats students teams
    match maxByEp3 stats, minByEp3 stats with
    | some mx, some mn =>
      if mx.2 - mn.2 ≤ target_ep3 then .halt .converged
      else
        let all_swaps := generate_asymmetric_swaps students teams mx.1 mn.1
        if all_swaps.isEmpty then .halt .stuck
        else
          match select_best_swap all_swaps with
          | none => .halt .stuck
          | some best => .swap best (apply_swap teams best)
    | _, _ => .halt .failed

/-- The iteration loop of `optimize`, bounded by `max_iterations`
(fuel); returns the applied-swap log in order, the final team mapping
and the stop label. -/
def optimizeLoop (students : Students) (target_ep3 target_gender target_greek : Int) :
    Nat → Teams → List Swap × Teams × LoopExit
  | 0, teams => ([], teams, .exhausted)
  | fuel + 1, teams =>
    match optimizeStep students target_ep3 target_gender target_greek teams with
    | .halt ex => ([], teams, ex)
    | .swap best teams' =>
      let r := optimizeLoop students target_ep3 target_gender target_greek fuel teams'
      (best :: r.1, r.2.1, r.2.2)

/-- `optimize`: the swap log together with the final spreads (the final
team mapping is the second component of the loop's result). -/
def optimize (students : Students) (target_ep3 target_gender target_greek : Int)
    (max_iterations : Nat) (teams : Teams) : List Swap × Spreads :=
  let r := optimizeLoop students target_ep3 target_gender target_greek
    max_iterations teams
  (r.1, calculate_spreads students r.2.1)

/-- Default `target_ep3` set in `UnifiedProcessor.__init__`. -/
def default_target_ep3 : Int := 3

/-- Default `target_gender` set in `UnifiedProcessor.__init__`. -/
def default_target_gender : Int := 4

/-- Default `target_greek` set in `UnifiedProcessor.__init__`. -/
def default_target_greek : Int := 4

/-- Concatenation of all member lists, in team order. -/
def allMembers (teams : Teams) : List String :=
  teams.flatMap (fun p => p.2)

/-- How many membership slots (across all teams) hold the given name. -/
def occ (n : String) (teams : Teams) : Nat :=
  (allMembers teams).count n

/-- Total student count across all teams. -/
def totalCount (teams : Teams) : Nat :=
  (allMembers teams).length

/-- The whole optimizer state: `_apply_swap` mutates only the
`self.teams` field, never `self.students`. -/
structure ProcState where
  students : Students
  teams : Teams
deriving DecidableEq, Repr

/-- `_apply_swap` viewed on the whole state: only the team mapping
changes. -/
def apply_swap_state (st : ProcState) (sw : Swap) : ProcState :=
  { st with teams := apply_swap st.teams sw }

/-! ### Specification-side predicates and concrete scenarios -/

/-- Student record used in the C3 scenario: priority 3, unlocked, with
an empty own friend list. -/
def c3_sA : Student := ⟨"A", 3, "Α", "Ν", [], false⟩

/-- Teammate in the C3 scenario who declares the friend link to `A`
only on their own side. -/
def c3_sB : Student := ⟨"B", 1, "Α", "Ν", ["A"], false⟩

/-- Student mapping of the C3 scenario. -/
def c3_students : Students := [("A", c3_sA), ("B", c3_sB)]

/-- Single team holding both students of the C3 scenario. -/
def c3_teams : Teams := [("T", ["A", "B"])]

/-- The improvement predicate exactly as the specification words it:
the swap improves iff the priority-3 delta is positive, or it is zero
and the demographic sum delta or the proficiency delta is positive. -/
def specImproves (imp : Improvement) : Prop :=
  0 < imp.delta_ep3 ∨
    (imp.delta_ep3 = 0 ∧
      (0 < imp.delta_boys + imp.delta_girls ∨ 0 < imp.delta_greek))

/-- The spec's worked example: team A holds two unlocked priority-3
students, team B two priority-1 students, no friends, identical
demographic and proficiency attributes. -/
def c2_students : Students :=
  [("S1", ⟨"S1", 3, "Α", "Ν", [], false⟩),
   ("S2", ⟨"S2", 3, "Α", "Ν", [], false⟩),
   ("S3", ⟨"S3", 1, "Α", "Ν", [], false⟩),
   ("S4", ⟨"S4", 1, "Α", "Ν", [], false⟩)]

/-- Teams of the worked example. -/
def c2_teams : Teams := [("A", ["S1", "S2"]), ("B", ["S3", "S4"])]

/-- The tier-1 candidate exchanging `S1` for `S3` in the worked example. -/
def c1w_swap : Swap :=
  ⟨"Solo(ep3)↔Solo(ep1/2)-P1", "A", ["S1"], "B", ["S3"],
    calc_asymmetric_improvement c2_students c2_teams "A" ["S1"] "B" ["S3"], 1⟩

/-- A candidate with priority-3 delta 2, used to exercise the selector. -/
def c7_swapX : Swap := ⟨"X", "A", ["a"], "B", ["b"], ⟨true, 2, 0, 0, 0, 2, 0⟩, 3⟩

/-- A candidate with priority-3 delta 1, used to exercise the selector. -/
def c7_swapY : Swap := ⟨"Y", "A", ["c"], "B", ["d"], ⟨true, 1, 0, 0, 0, 2, 1⟩, 1⟩

/-- A concrete two-element pool for the selector. -/
def c7_pool : List Swap := [c7_swapY, c7_swapX]

/-- The max-minus-min priority-3 count difference exactly as step 2 of
the loop computes it (0 when there are no teams, where the original
would raise). -/
def ep3MaxMinDiff (students : Students) (teams : Teams) : Int :=
  match maxByEp3 (get_team_stats students teams),
      minByEp3 (get_team_stats students teams) with
  | some mx, some mn => mx.2 - mn.2
  | _, _ => 0

/-- The disjunction of the loop's two converged break conditions. -/
def convergedCond (students : Students) (t1 t2 t3 : Int) (teams : Teams) : Prop :=
  ((calculate_spreads students teams).ep3 ≤ t1 ∧
      (calculate_spreads students teams).boys ≤ t2 ∧
      (calculate_spreads students teams).girls ≤ t2 ∧
      (calculate_spreads students teams).greek_yes ≤ t3) ∨
    (∃ mx mn, maxByEp3 (get_team_stats students teams) = some mx ∧
      minByEp3 (get_team_stats students teams) = some mn ∧ mx.2 - mn.2 ≤ t1)

/-- Three-team mapping used to exercise swap application. -/
def c6_teams : Teams := [("A", ["x"]), ("B", ["y"]), ("C", ["z"])]

/-- A concrete swap moving `x` from team A and `y` from team B. -/
def c6w_swap : Swap := ⟨"t", "A", ["x"], "B", ["y"], ⟨false, 0, 0, 0, 0, 0, 0⟩, 1⟩

/-- State for the C10 witness. -/
def c10_st : ProcState := ⟨[], c6_teams⟩

/-! ### Characterisation of the solo and pair classifiers -/

/-- Membership in `_get_solos_with_ep3`: exactly the team members with a
record, unlocked, performance 3, and none of whose OWN declared friends
is in the team list. -/
theorem mem_get_solos_with_ep3 {students : Students} {teams : Teams}
    {team_name n : String} {s : Student} :
    (n, s) ∈ get_solos_with_ep3 students teams team_name ↔
      n ∈ getTeam teams team_name ∧ findStudent students n = some s ∧
        s.locked = false ∧ s.choice = 3 ∧
        ∀ f ∈ s.friends, f ∉ getTeam teams team_name := by
  unfold get_solos_with_ep3
  rw [List.mem_filterMap]
  constructor
  · rintro ⟨a, ha, heq⟩
    split at heq
    · exact absurd heq (by simp)
    · rename_i t hfs
      split at heq
      · exact absurd heq (by simp)
      · split at heq
        · exact absurd heq (by simp)
        · rename_i h1 h2
          obtain ⟨rfl, rfl⟩ : a = n ∧ t = s := by simpa using heq
          simp only [Bool.or_eq_true, not_or, Bool.not_eq_true,
            Bool.not_eq_true'] at h1
          rw [Bool.not_eq_true, List.any_eq_false] at h2
          refine ⟨ha, hfs, h1.1, by simpa using h1.2, fun f hf => ?_⟩
          simpa using h2 f hf
  · rintro ⟨hmem, hfs, hl, hc, hfr⟩
    refine ⟨n, hmem, ?_⟩
    rw [hfs]
    have h2 : (s.friends.any fun f =>
        (getTeam teams team_name).contains f) = false := by
      rw [List.any_eq_false]
      intro f hf
      simpa using hfr f hf
    simp [hl, hc, h2]
    exact hfr

/-- Membership in `_get_solos_without_ep3` (forward direction): every
listed solo has a record, is unlocked and has performance other than 3. -/
theorem mem_get_solos_without_ep3 {students : Students} {teams : Teams}
    {team_name n : String} {s : Student} :
    (n, s) ∈ get_solos_without_ep3 students teams team_name →
      findStudent students n = some s ∧ s.locked = false ∧ s.choice ≠ 3 := by
  unfold get_solos_without_ep3
  rw [List.mem_filterMap]
  rintro ⟨a, ha, heq⟩
  split at heq
  · exact absurd heq (by simp)
  · rename_i t hfs
    split at heq
    · exact absurd heq (by simp)
    · split at heq
      · exact absurd heq (by simp)
      · rename_i h1 h2
        obtain ⟨rfl, rfl⟩ : a = n ∧ t = s := by simpa using heq
        simp only [Bool.or_eq_true, not_or, Bool.not_eq_true] at h1
        exact ⟨hfs, h1.1, by simpa using h1.2⟩

/-- The inner pair scan only returns a partner with a record, unlocked,
linked to `name_a` in at least one direction, and satisfying `cond`. -/
theorem findPartner_some {students : Students} {cond : Student → Student → Bool}
    {processed : List String} {name_a : String} {sa : Student} :
    ∀ {names : List String} {name_b : String} {sb : Student},
      findPartner students cond processed name_a sa names = some (name_b, sb) →
      findStudent students name_b = some sb ∧ sb.locked = false ∧
        (sa.friends.contains name_b || sb.friends.contains name_a) = true ∧
        cond sa sb = true := by
  intro names
  induction names with
  | nil => intro nb sb h; exact absurd h (by simp [findPartner])
  | cons hd tl ih =>
    intro nb sb h
    unfold findPartner at h
    split at h
    · exact ih h
    · split at h
      · exact ih h
      · rename_i t hfs
        split at h
        · exact ih h
        · split at h
          · rename_i hlk hcond
            obtain ⟨rfl, rfl⟩ : hd = nb ∧ t = sb := by simpa using h
            rw [Bool.and_eq_true] at hcond
            exact ⟨hfs, by simpa using hlk, hcond.1, hcond.2⟩
          · exact ih h

/-- Every pair produced by the pair scanners records its two members'
looked-up records, both unlocked, linked in at least one direction and
satisfying the scanner's performance condition. -/
theorem getPairsGo_mem {students : Students} {cond : Student → Student → Bool}
    {student_names : List String} :
    ∀ {rem processed : List String} {pr : FriendPair},
      pr ∈ getPairsGo students cond student_names rem processed →
      findStudent students pr.name_a = some pr.student_a ∧
        pr.student_a.locked = false ∧
        findStudent students pr.name_b = some pr.student_b ∧
        pr.student_b.locked = false ∧
        (pr.student_a.friends.contains pr.name_b ||
          pr.student_b.friends.contains pr.name_a) = true ∧
        cond pr.student_a pr.student_b = true := by
  intro rem
  induction rem with
  | nil => intro processed pr h; exact absurd h (by simp [getPairsGo])
  | cons hd tl ih =>
    intro processed pr h
    unfold getPairsGo at h
    split at h
    · exact ih h
    · split at h
      · exact ih h
      · rename_i sa hfs
        split at h
        · exact ih h
        · split at h
          · exact ih h
          · rename_i hlk x nb sb hpart
            rcases List.mem_cons.mp h with rfl | hmem
            · obtain ⟨hb, hbl, hfr, hc⟩ := findPartner_some hpart
              exact ⟨hfs, by simpa using hlk, hb, hbl, hfr, hc⟩
            · exact ih hmem

/-! ### C3: solo classification and one-sided friend links -/

/-- C3 (counterexample): student `A` is classified solo-priority3 even
though their co-located teammate `B` declares a friend link to `A`, so
under the symmetric friend relation `A` does have a co-located friend.
The claim that solo classification uses the symmetric relation is
therefore false on this input. -/
theorem c3_counterexample :
    ("A", c3_sA) ∈ get_solos_with_ep3 c3_students c3_teams "T" ∧
      "B" ∈ getTeam c3_teams "T" ∧ "B" ≠ "A" ∧
      findStudent c3_students "B" = some c3_sB ∧ "A" ∈ c3_sB.friends := by
  decide

/-- C3 (amended): a team member is classified solo-priority3 iff it has
a record, is unlocked, has performance 3, and none of the identities in
the student's OWN `friends` list occurs in the team's member list; a
link declared only on a teammate's side does not prevent solo
classification. -/
theorem c3_solo_iff_own_links :
    ∀ (students : Students) (teams : Teams) (team_name n : String) (s : Student),
      (n, s) ∈ get_solos_with_ep3 students teams team_name ↔
        n ∈ getTeam teams team_name ∧ findStudent students n = some s ∧
          s.locked = false ∧ s.choice = 3 ∧
          ∀ f ∈ s.friends, f ∉ getTeam teams team_name := by
  intro students teams team_name n s
  exact mem_get_solos_with_ep3

/-! ### Gender cancellation in the improvement calculation -/

/-- An adjustment pass over a single present name is one stats update. -/
theorem adjustPass_single {students : Students} {n : String} {s : Student}
    (h : findStudent students n = some s) (team : String) (sign : Int)
    (stats : List (String × TeamStats)) :
    adjustPass students team sign [n] stats =
      adjStats team (applyDelta s sign) stats := by
  simp [adjustPass, h]

/-- An adjustment pass over two present names is two stats updates. -/
theorem adjustPass_two {students : Students} {n1 n2 : String} {s1 s2 : Student}
    (h1 : findStudent students n1 = some s1)
    (h2 : findStudent students n2 = some s2) (team : String) (sign : Int)
    (stats : List (String × TeamStats)) :
    adjustPass students team sign [n1, n2] stats =
      adjStats team (applyDelta s2 sign)
        (adjStats team (applyDelta s1 sign) stats) := by
  simp [adjustPass, h1, h2]

/-- Spreads only depend on the projected value list. -/
theorem spreadOf_congr {f : TeamStats → Int}
    {s1 s2 : List (String × TeamStats)}
    (h : s1.map (fun p => f p.2) = s2.map (fun p => f p.2)) :
    spreadOf f s1 = spreadOf f s2 := by
  unfold spreadOf
  rw [h]

/-- The boys count after one hypothetical adjustment. -/
theorem applyDelta_boys (s : Student) (sign : Int) (st : TeamStats) :
    (applyDelta s sign st).boys =
      st.boys + (if s.gender == "Α" then sign else 0) := rfl

/-- The girls count after one hypothetical adjustment. -/
theorem applyDelta_girls (s : Student) (sign : Int) (st : TeamStats) :
    (applyDelta s sign st).girls =
      st.girls + (if s.gender == "Α" then (0 : Int)
        else if s.gender == "Κ" then sign else 0) := rfl

/-- Entry updates keep the key. -/
theorem adjEntry_fst (team : String) (f : TeamStats → TeamStats)
    (q : String × TeamStats) : (adjEntry team f q).1 = q.1 := by
  unfold adjEntry
  split <;> rfl

/-- Flattened boys count of one entry update. -/
theorem adjEntry_boys_step (team : String) (s : Student) (sign : Int)
    (q : String × TeamStats) :
    (adjEntry team (applyDelta s sign) q).2.boys =
      q.2.boys + (if q.1 == team then
        (if s.gender == "Α" then sign else 0) else 0) := by
  unfold adjEntry
  cases h : q.1 == team <;> simp [h, applyDelta_boys]

/-- Flattened girls count of one entry update. -/
theorem adjEntry_girls_step (team : String) (s : Student) (sign : Int)
    (q : String × TeamStats) :
    (adjEntry team (applyDelta s sign) q).2.girls =
      q.2.girls + (if q.1 == team then
        (if s.gender == "Α" then (0 : Int)
          else if s.gender == "Κ" then sign else 0) else 0) := by
  unfold adjEntry
  cases h : q.1 == team <;> simp [h, applyDelta_girls]

/-- Entry-level boys cancellation for a gender-matched solo exchange. -/
theorem adjEntry_boys_solo {sa sb : Student} (hg : sa.gender = sb.gender)
    (th tl : String) (p : String × TeamStats) :
    (adjEntry tl (applyDelta sa 1)
        (adjEntry tl (applyDelta sb (-1))
          (adjEntry th (applyDelta sb 1)
            (adjEntry th (applyDelta sa (-1)) p)))).2.boys = p.2.boys := by
  simp only [adjEntry_boys_step, adjEntry_fst]
  rw [hg]
  cases hth : p.1 == th <;> cases htl : p.1 == tl <;>
    cases hA : sb.gender == "Α" <;> simp [hth, htl, hA]

/-- Entry-level girls cancellation for a gender-matched solo exchange. -/
theorem adjEntry_girls_solo {sa sb : Student} (hg : sa.gender = sb.gender)
    (th tl : String) (p : String × TeamStats) :
    (adjEntry tl (applyDelta sa 1)
        (adjEntry tl (applyDelta sb (-1))
          (adjEntry th (applyDelta sb 1)
            (adjEntry th (applyDelta sa (-1)) p)))).2.girls = p.2.girls := by
  simp only [adjEntry_girls_step, adjEntry_fst]
  rw [hg]
  cases hth : p.1 == th <;> cases htl : p.1 == tl <;>
    cases hA : sb.gender == "Α" <;> cases hK : sb.gender == "Κ" <;>
    simp [hth, htl, hA, hK]

/-- Entry-level boys cancellation for a position-wise gender-matched
pair exchange. -/
theorem adjEntry_boys_pair {sa1 sa2 sb1 sb2 : Student}
    (hg1 : sa1.gender = sb1.gender) (hg2 : sa2.gender = sb2.gender)
    (th tl : String) (p : String × TeamStats) :
    (adjEntry tl (applyDelta sa2 1)
        (adjEntry tl (applyDelta sa1 1)
          (adjEntry tl (applyDelta sb2 (-1))
            (adjEntry tl (applyDelta sb1 (-1))
              (adjEntry th (applyDelta sb2 1)
                (adjEntry th (applyDelta sb1 1)
                  (adjEntry th (applyDelta sa2 (-1))
                    (adjEntry th (applyDelta sa1 (-1)) p)))))))).2.boys =
      p.2.boys := by
  simp only [adjEntry_boys_step, adjEntry_fst]
  rw [hg1, hg2]
  cases hth : p.1 == th <;> cases htl : p.1 == tl <;>
    cases hA1 : sb1.gender == "Α" <;> cases hA2 : sb2.gender == "Α" <;>
    simp [hth, htl, hA1, hA2]

/-- Entry-level girls cancellation for a position-wise gender-matched
pair exchange. -/
theorem adjEntry_girls_pair {sa1 sa2 sb1 sb2 : Student}
    (hg1 : sa1.gender = sb1.gender) (hg2 : sa2.gender = sb2.gender)
    (th tl : String) (p : String × TeamStats) :
    (adjEntry tl (applyDelta sa2 1)
        (adjEntry tl (applyDelta sa1 1)
          (adjEntry tl (applyDelta sb2 (-1))
            (adjEntry tl (applyDelta sb1 (-1))
              (adjEntry th (applyDelta sb2 1)
                (adjEntry th (applyDelta sb1 1)
                  (adjEntry th (applyDelta sa2 (-1))
                    (adjEntry th (applyDelta sa1 (-1)) p)))))))).2.girls =
      p.2.girls := by
  simp only [adjEntry_girls_step, adjEntry_fst]
  rw [hg1, hg2]
  cases hth : p.1 == th <;> cases htl : p.1 == tl <;>
    cases hA1 : sb1.gender == "Α" <;> cases hA2 : sb2.gender == "Α" <;>
    cases hK1 : sb1.gender == "Κ" <;> cases hK2 : sb2.gender == "Κ" <;>
    simp [hth, htl, hA1, hA2, hK1, hK2]

/-- List-level boys cancellation for a gender-matched solo exchange. -/
theorem boys_map_solo {sa sb : Student} (hg : sa.gender = sb.gender)
    (th tl : String) (stats : List (String × TeamStats)) :
    (adjStats tl (applyDelta sa 1)
        (adjStats tl (applyDelta sb (-1))
          (adjStats th (applyDelta sb 1)
            (adjStats th (applyDelta sa (-1)) stats)))).map (fun p => p.2.boys) =
      stats.map (fun p => p.2.boys) := by
  simp only [adjStats, List.map_map]
  apply List.map_congr_left
  intro p hp
  exact adjEntry_boys_solo hg th tl p

/-- List-level girls cancellation for a gender-matched solo exchange. -/
theorem girls_map_solo {sa sb : Student} (hg : sa.gender = sb.gender)
    (th tl : String) (stats : List (String × TeamStats)) :
    (adjStats tl (applyDelta sa 1)
        (adjStats tl (applyDelta sb (-1))
          (adjStats th (applyDelta sb 1)
            (adjStats th (applyDelta sa (-1)) stats)))).map (fun p => p.2.girls) =
      stats.map (fun p => p.2.girls) := by
  simp only [adjStats, List.map_map]
  apply List.map_congr_left
  intro p hp
  exact adjEntry_girls_solo hg th tl p

/-- `adjStats` acts entrywise on a cons cell. -/
theorem adjStats_cons (team : String) (f : TeamStats → TeamStats)
    (p : String × TeamStats) (rest : List (String × TeamStats)) :
    adjStats team f (p :: rest) = adjEntry team f p :: adjStats team f rest := rfl

/-- List-level boys cancellation for a pair exchange. -/
theorem boys_map_pair {sa1 sa2 sb1 sb2 : Student}
    (hg1 : sa1.gender = sb1.gender) (hg2 : sa2.gender = sb2.gender)
    (th tl : String) (stats : List (String × TeamStats)) :
    (adjStats tl (applyDelta sa2 1)
        (adjStats tl (applyDelta sa1 1)
          (adjStats tl (applyDelta sb2 (-1))
            (adjStats tl (applyDelta sb1 (-1))
              (adjStats th (applyDelta sb2 1)
                (adjStats th (applyDelta sb1 1)
                  (adjStats th (applyDelta sa2 (-1))
                    (adjStats th (applyDelta sa1 (-1)) stats)))))))).map
        (fun p => p.2.boys) =
      stats.map (fun p => p.2.boys) := by
  induction stats with
  | nil => rfl
  | cons p rest ih =>
    simp only [adjStats_cons, List.map_cons, ih, adjEntry_boys_pair hg1 hg2]

/-- List-level girls cancellation for a pair exchange. -/
theorem girls_map_pair {sa1 sa2 sb1 sb2 : Student}
    (hg1 : sa1.gender = sb1.gender) (hg2 : sa2.gender = sb2.gender)
    (th tl : String) (stats : List (String × TeamStats)) :
    (adjStats tl (applyDelta sa2 1)
        (adjStats tl (applyDelta sa1 1)
          (adjStats tl (applyDelta sb2 (-1))
            (adjStats tl (applyDelta sb1 (-1))
              (adjStats th (applyDelta sb2 1)
                (adjStats th (applyDelta sb1 1)
                  (adjStats th (applyDelta sa2 (-1))
                    (adjStats th (applyDelta sa1 (-1)) stats)))))))).map
        (fun p => p.2.girls) =
      stats.map (fun p => p.2.girls) := by
  induction stats with
  | nil => rfl
  | cons p rest ih =>
    simp only [adjStats_cons, List.map_cons, ih, adjEntry_girls_pair hg1 hg2]

/-- The stored `improves` flag agrees with the source's disjunction of
the stored deltas. -/
theorem calc_improves_iff (students : Students) (teams : Teams)
    (th : String) (outs : List String) (tl : String) (ins : List String) :
    (calc_asymmetric_improvement students teams th outs tl ins).improves = true ↔
      (0 < (calc_asymmetric_improvement students teams th outs tl ins).delta_ep3 ∨
        ((calc_asymmetric_improvement students teams th outs tl ins).delta_ep3 = 0 ∧
          (0 < (calc_asymmetric_improvement students teams th outs tl ins).delta_boys ∨
            0 < (calc_asymmetric_improvement students teams th outs tl ins).delta_girls ∨
            0 < (calc_asymmetric_improvement students teams th outs tl ins).delta_greek))) := by
  unfold calc_asymmetric_improvement
  dsimp only
  simp only [Bool.or_eq_true, Bool.and_eq_true, decide_eq_true_eq]
  tauto

/-- A gender-matched solo exchange has zero boys and girls deltas. -/
theorem calc_solo_deltas {students : Students} {teams : Teams}
    (th tl : String) {na nb : String} {sa sb : Student}
    (h1 : findStudent students na = some sa)
    (h2 : findStudent students nb = some sb) (hg : sa.gender = sb.gender) :
    (calc_asymmetric_improvement students teams th [na] tl [nb]).delta_boys = 0 ∧
      (calc_asymmetric_improvement students teams th [na] tl [nb]).delta_girls = 0 := by
  have hb := boys_map_solo hg th tl (get_team_stats students teams)
  have hgl := girls_map_solo hg th tl (get_team_stats students teams)
  unfold calc_asymmetric_improvement
  dsimp only
  rw [adjustPass_single h1, adjustPass_single h2, adjustPass_single h2,
    adjustPass_single h1]
  constructor
  · rw [spreadOf_congr hb]
    exact sub_self _
  · rw [spreadOf_congr hgl]
    exact sub_self _

/-- A position-wise gender-matched pair exchange has zero boys and
girls deltas. -/
theorem calc_pair_deltas {students : Students} {teams : Teams}
    (th tl : String) {na1 na2 nb1 nb2 : String} {sa1 sa2 sb1 sb2 : Student}
    (ha1 : findStudent students na1 = some sa1)
    (ha2 : findStudent students na2 = some sa2)
    (hb1 : findStudent students nb1 = some sb1)
    (hb2 : findStudent students nb2 = some sb2)
    (hg1 : sa1.gender = sb1.gender) (hg2 : sa2.gender = sb2.gender) :
    (calc_asymmetric_improvement students teams th [na1, na2] tl
        [nb1, nb2]).delta_boys = 0 ∧
      (calc_asymmetric_improvement students teams th [na1, na2] tl
        [nb1, nb2]).delta_girls = 0 := by
  have hb := boys_map_pair hg1 hg2 th tl (get_team_stats students teams)
  have hgl := girls_map_pair hg1 hg2 th tl (get_team_stats students teams)
  unfold calc_asymmetric_improvement
  dsimp only
  rw [adjustPass_two ha1 ha2, adjustPass_two hb1 hb2, adjustPass_two hb1 hb2,
    adjustPass_two ha1 ha2]
  constructor
  · rw [spreadOf_congr hb]
    exact sub_self _
  · rw [spreadOf_congr hgl]
    exact sub_self _

/-- C1: every hypothetical swap the scorer evaluates is gender-matched
(solo-to-solo or position-wise pair-to-pair), and for such swaps the
stored `improves` flag holds iff `Δpriority3 > 0`, or `Δpriority3 = 0`
and at least one of the demographic-sum delta `Δboys + Δgirls` and the
proficiency delta is positive; consequently every candidate surviving
generation has `improves = true` and satisfies that predicate. -/
theorem c1_scorer_improvement (students : Students) (teams : Teams)
    (max_team min_team : String) :
    (∀ na sa nb sb, findStudent students na = some sa →
        findStudent students nb = some sb → sa.gender = sb.gender →
        ((calc_asymmetric_improvement students teams max_team [na]
            min_team [nb]).improves = true ↔
          specImproves (calc_asymmetric_improvement students teams max_team [na]
            min_team [nb]))) ∧
    (∀ na1 sa1 na2 sa2 nb1 sb1 nb2 sb2,
        findStudent students na1 = some sa1 →
        findStudent students na2 = some sa2 →
        findStudent students nb1 = some sb1 →
        findStudent students nb2 = some sb2 →
        sa1.gender = sb1.gender → sa2.gender = sb2.gender →
        ((calc_asymmetric_improvement students teams max_team [na1, na2]
            min_team [nb1, nb2]).improves = true ↔
          specImproves (calc_asymmetric_improvement students teams max_team
            [na1, na2] min_team [nb1, nb2]))) ∧
    (∀ sw ∈ generate_asymmetric_swaps students teams max_team min_team,
        sw.improvement.improves = true ∧ specImproves sw.improvement) := by
  have solo_iff : ∀ na sa nb sb, findStudent students na = some sa →
      findStudent students nb = some sb → sa.gender = sb.gender →
      ((calc_asymmetric_improvement students teams max_team [na]
          min_team [nb]).improves = true ↔
        specImproves (calc_asymmetric_improvement students teams max_team [na]
          min_team [nb])) := by
    intro na sa nb sb h1 h2 hg
    obtain ⟨hb0, hg0⟩ := calc_solo_deltas max_team min_team h1 h2 hg
    rw [calc_improves_iff]
    unfold specImproves
    rw [hb0, hg0]
    constructor
    · rintro (h | ⟨h, h3 | h3 | h3⟩) <;> omega
    · rintro (h | ⟨h, h3 | h3⟩) <;> omega
  have pair_iff : ∀ na1 sa1 na2 sa2 nb1 sb1 nb2 sb2,
      findStudent students na1 = some sa1 →
      findStudent students na2 = some sa2 →
      findStudent students nb1 = some sb1 →
      findStudent students nb2 = some sb2 →
      sa1.gender = sb1.gender → sa2.gender = sb2.gender →
      ((calc_asymmetric_improvement students teams max_team [na1, na2]
          min_team [nb1, nb2]).improves = true ↔
        specImproves (calc_asymmetric_improvement students teams max_team
          [na1, na2] min_team [nb1, nb2])) := by
    intro na1 sa1 na2 sa2 nb1 sb1 nb2 sb2 ha1 ha2 hb1 hb2 hg1 hg2
    obtain ⟨hb0, hg0⟩ := calc_pair_deltas max_team min_team
      ha1 ha2 hb1 hb2 hg1 hg2
    rw [calc_improves_iff]
    unfold specImproves
    rw [hb0, hg0]
    constructor
    · rintro (h | ⟨h, h3 | h3 | h3⟩) <;> omega
    · rintro (h | ⟨h, h3 | h3⟩) <;> omega
  refine ⟨solo_iff, pair_iff, ?_⟩
  intro sw hsw
  simp only [generate_asymmetric_swaps] at hsw
  rcases List.mem_append.mp hsw with h12 | h3
  · rcases List.mem_append.mp h12 with h1 | h2
    · rw [List.mem_flatMap] at h1
      obtain ⟨sm, hsm, h1⟩ := h1
      rw [List.mem_flatMap] at h1
      obtain ⟨sn, hsn, h1⟩ := h1
      split at h1
      · rename_i hguard
        split at h1
        · rename_i himp
          rcases List.mem_singleton.mp h1 with rfl
          obtain ⟨-, hfsm, -, -, -⟩ :=
            mem_get_solos_with_ep3.mp (show (sm.1, sm.2) ∈ _ from hsm)
          obtain ⟨hfsn, -, -⟩ :=
            mem_get_solos_without_ep3 (show (sn.1, sn.2) ∈ _ from hsn)
          rw [Bool.and_eq_true] at hguard
          have hg : sm.2.gender = sn.2.gender := by
            simpa using hguard.1
          exact ⟨himp, (solo_iff sm.1 sm.2 sn.1 sn.2 hfsm hfsn hg).mp himp⟩
        · exact absurd h1 (by simp)
      · exact absurd h1 (by simp)
    · rw [List.mem_flatMap] at h2
      obtain ⟨pm, hpm, h2⟩ := h2
      rw [List.mem_flatMap] at h2
      obtain ⟨pn, hpn, h2⟩ := h2
      split at h2
      · rename_i hguard
        split at h2
        · rename_i himp
          rcases List.mem_singleton.mp h2 with rfl
          obtain ⟨hfa, -, hfb, -, -, -⟩ := getPairsGo_mem hpm
          obtain ⟨hfa2, -, hfb2, -, -, -⟩ := getPairsGo_mem hpn
          rw [Bool.and_eq_true, Bool.and_eq_true, Bool.and_eq_true] at hguard
          obtain ⟨⟨⟨hga, hgb⟩, -⟩, -⟩ := hguard
          have hg1 : pm.student_a.gender = pn.student_a.gender := by
            simpa using hga
          have hg2 : pm.student_b.gender = pn.student_b.gender := by
            simpa using hgb
          exact ⟨himp, (pair_iff pm.name_a pm.student_a pm.name_b pm.student_b
            pn.name_a pn.student_a pn.name_b pn.student_b
            hfa hfb hfa2 hfb2 hg1 hg2).mp himp⟩
        · exact absurd h2 (by simp)
      · exact absurd h2 (by simp)
  · rw [List.mem_flatMap] at h3
    obtain ⟨sm, hsm, h3⟩ := h3
    rw [List.mem_flatMap] at h3
    obtain ⟨sn, hsn, h3⟩ := h3
    split at h3
    · rename_i hguard
      split at h3
      · rename_i himp
        rcases List.mem_singleton.mp h3 with rfl
        obtain ⟨-, hfsm, -, -, -⟩ :=
          mem_get_solos_with_ep3.mp (show (sm.1, sm.2) ∈ _ from hsm)
        obtain ⟨hfsn, -, -⟩ :=
          mem_get_solos_without_ep3 (show (sn.1, sn.2) ∈ _ from hsn)
        have hg : sm.2.gender = sn.2.gender := by
          simpa using hguard
        exact ⟨himp, (solo_iff sm.1 sm.2 sn.1 sn.2 hfsm hfsn hg).mp himp⟩
      · exact absurd h3 (by simp)
    · exact absurd h3 (by simp)

/-- Witness for C1: a concrete surviving candidate with its flag set
and the spec predicate satisfied. -/
theorem c1_scorer_improvement_witness :
    c1w_swap.improvement.improves = true ∧ specImproves c1w_swap.improvement :=
  (c1_scorer_improvement c2_students c2_teams "A" "B").2.2 c1w_swap (by decide)

/-- C2 (counterexample): on the spec's worked example, running the loop
with the DEFAULT targets performs zero swaps — the initial priority-3
spread is 2, already within the default target 3, so the loop converges
immediately; the swap log has length 0, not 1, and the final priority-3
spread is 2, not 0. -/
theorem c2_counterexample :
    (optimize c2_students default_target_ep3 default_target_gender
        default_target_greek 100 c2_teams).1.length = 0 ∧
      (optimize c2_students default_target_ep3 default_target_gender
        default_target_greek 100 c2_teams).2.ep3 = 2 ∧
      (optimizeLoop c2_students default_target_ep3 default_target_gender
        default_target_greek 100 c2_teams).2.2 = LoopExit.converged := by
  decide

unseal List.merge List.mergeSort in
/-- C2 (amended): on the worked example the one-swap behaviour requires
a priority-3 target below the initial spread of 2; with the target set
to 1 the loop applies exactly one swap in its first iteration, moving
one student from A to B and one from B to A, and stops converged with a
final priority-3 spread of 0 and a swap log of length 1. -/
theorem c2_amended :
    (optimizeLoop c2_students 1 4 4 100 c2_teams).1.map
        (fun sw => (sw.from_team, sw.to_team, sw.students_out.length,
          sw.students_in.length)) = [("A", "B", 1, 1)] ∧
      (calculate_spreads c2_students
        (optimizeLoop c2_students 1 4 4 100 c2_teams).2.1).ep3 = 0 ∧
      (optimizeLoop c2_students 1 4 4 100 c2_teams).1.length = 1 ∧
      (optimizeLoop c2_students 1 4 4 100 c2_teams).2.2 = LoopExit.converged := by
  decide

/-- The selector's order is reflexive. -/
theorem swapLe_refl (x : Swap) : swapLe x x = true := by
  simp [swapLe]

/-- The selector's order is total. -/
theorem swapLe_total (x y : Swap) : (swapLe x y || swapLe y x) = true := by
  simp only [swapLe, Bool.or_eq_true, Bool.and_eq_true, decide_eq_true_eq]
  omega

/-- The selector's order is transitive. -/
theorem swapLe_trans (x y z : Swap) (h1 : swapLe x y = true)
    (h2 : swapLe y z = true) : swapLe x z = true := by
  simp only [swapLe, Bool.or_eq_true, Bool.and_eq_true, decide_eq_true_eq] at *
  omega

/-- C7: the selector returns `none` exactly on the empty pool, and on a
non-empty pool it returns a member that is first under the stable
ascending sort by `(-Δpriority3, -(Δboys + Δgirls), -Δgreek, tier)`,
hence minimal in that order among the whole pool. -/
theorem c7_selector (pool : List Swap) :
    (pool = [] → select_best_swap pool = none) ∧
      (∀ sw, select_best_swap pool = some sw →
        sw ∈ pool ∧ ∀ t ∈ pool, swapLe sw t = true) ∧
      (pool ≠ [] → ∃ sw, select_best_swap pool = some sw) := by
  refine ⟨?_, ?_, ?_⟩
  · rintro rfl
    rfl
  · intro sw hsw
    unfold select_best_swap at hsw
    split at hsw
    · exact absurd hsw (by simp)
    · have hperm := List.mergeSort_perm pool swapLe
      have hsorted := List.sorted_mergeSort
        (fun a b c => swapLe_trans a b c)
        (fun a b => swapLe_total a b) pool
      rcases hms : pool.mergeSort swapLe with _ | ⟨hd, tl⟩
      · rw [hms] at hsw
        exact absurd hsw (by simp)
      · rw [hms] at hsw
        have hhd : hd = sw := by simpa using hsw
        subst hhd
        rw [hms] at hperm hsorted
        constructor
        · exact hperm.mem_iff.mp (List.mem_cons_self hd tl)
        · intro t ht
          have ht2 : t ∈ hd :: tl := hperm.mem_iff.mpr ht
          rcases List.mem_cons.mp ht2 with rfl | htl
          · exact swapLe_refl t
          · exact (List.pairwise_cons.mp hsorted).1 t htl
  · intro hne
    unfold select_best_swap
    rw [if_neg (by simpa using hne)]
    have hperm := List.mergeSort_perm pool swapLe
    rcases hms : pool.mergeSort swapLe with _ | ⟨hd, tl⟩
    · rw [hms] at hperm
      exact absurd hperm.symm.eq_nil hne
    · exact ⟨hd, rfl⟩

unseal List.merge List.mergeSort in
/-- Witness for C7: on the concrete pool the selector picks the member
with the larger priority-3 delta, which is minimal in the sort order. -/
theorem c7_selector_witness :
    c7_swapX ∈ c7_pool ∧ swapLe c7_swapX c7_swapY = true :=
  ⟨((c7_selector c7_pool).2.1 c7_swapX (by decide)).1,
   ((c7_selector c7_pool).2.1 c7_swapX (by decide)).2 c7_swapY (by decide)⟩

/-- A selected swap belongs to the pool it was selected from. -/
theorem select_best_swap_mem {swaps : List Swap} {sw : Swap}
    (h : select_best_swap swaps = some sw) : sw ∈ swaps := by
  unfold select_best_swap at h
  split at h
  · exact absurd h (by simp)
  · have hperm := List.mergeSort_perm swaps swapLe
    rcases hms : swaps.mergeSort swapLe with _ | ⟨hd, tl⟩
    · rw [hms] at h
      exact absurd h (by simp)
    · rw [hms] at h
      have hhd : hd = sw := by simpa using h
      subst hhd
      rw [hms] at hperm
      exact hperm.mem_iff.mp (List.mem_cons_self hd tl)

/-- Every name moved by a generated candidate has an unlocked record. -/
theorem generate_swaps_unlocked (students : Students) (teams : Teams)
    (max_team min_team : String) :
    ∀ sw ∈ generate_asymmetric_swaps students teams max_team min_team,
      ∀ n ∈ sw.students_out ++ sw.students_in,
        ∃ s, findStudent students n = some s ∧ s.locked = false := by
  intro sw hsw
  simp only [generate_asymmetric_swaps] at hsw
  rcases List.mem_append.mp hsw with h12 | h3
  · rcases List.mem_append.mp h12 with h1 | h2
    · rw [List.mem_flatMap] at h1
      obtain ⟨sm, hsm, h1⟩ := h1
      rw [List.mem_flatMap] at h1
      obtain ⟨sn, hsn, h1⟩ := h1
      split at h1
      · split at h1
        · rcases List.mem_singleton.mp h1 with rfl
          obtain ⟨-, hfsm, hlm, -, -⟩ :=
            mem_get_solos_with_ep3.mp (show (sm.1, sm.2) ∈ _ from hsm)
          obtain ⟨hfsn, hln, -⟩ :=
            mem_get_solos_without_ep3 (show (sn.1, sn.2) ∈ _ from hsn)
          intro n hn
          rcases List.mem_append.mp hn with hn | hn <;>
            rcases List.mem_singleton.mp hn with rfl
          · exact ⟨sm.2, hfsm, hlm⟩
          · exact ⟨sn.2, hfsn, hln⟩
        · exact absurd h1 (by simp)
      · exact absurd h1 (by simp)
    · rw [List.mem_flatMap] at h2
      obtain ⟨pm, hpm, h2⟩ := h2
      rw [List.mem_flatMap] at h2
      obtain ⟨pn, hpn, h2⟩ := h2
      split at h2
      · split at h2
        · rcases List.mem_singleton.mp h2 with rfl
          obtain ⟨hfa, hla, hfb, hlb, -, -⟩ := getPairsGo_mem hpm
          obtain ⟨hfa2, hla2, hfb2, hlb2, -, -⟩ := getPairsGo_mem hpn
          intro n hn
          rcases List.mem_append.mp hn with hn | hn <;>
            rcases List.mem_cons.mp hn with rfl | hn
          · exact ⟨pm.student_a, hfa, hla⟩
          · rcases List.mem_singleton.mp hn with rfl
            exact ⟨pm.student_b, hfb, hlb⟩
          · exact ⟨pn.student_a, hfa2, hla2⟩
          · rcases List.mem_singleton.mp hn with rfl
            exact ⟨pn.student_b, hfb2, hlb2⟩
        · exact absurd h2 (by simp)
      · exact absurd h2 (by simp)
  · rw [List.mem_flatMap] at h3
    obtain ⟨sm, hsm, h3⟩ := h3
    rw [List.mem_flatMap] at h3
    obtain ⟨sn, hsn, h3⟩ := h3
    split at h3
    · split at h3
      · rcases List.mem_singleton.mp h3 with rfl
        obtain ⟨-, hfsm, hlm, -, -⟩ :=
          mem_get_solos_with_ep3.mp (show (sm.1, sm.2) ∈ _ from hsm)
        obtain ⟨hfsn, hln, -⟩ :=
          mem_get_solos_without_ep3 (show (sn.1, sn.2) ∈ _ from hsn)
        intro n hn
        rcases List.mem_append.mp hn with hn | hn <;>
          rcases List.mem_singleton.mp hn with rfl
        · exact ⟨sm.2, hfsm, hlm⟩
        · exact ⟨sn.2, hfsn, hln⟩
      · exact absurd h3 (by simp)
    · exact absurd h3 (by simp)

/-- When one iteration applies a swap, that swap came from the
generator for some team pair, and the new state is its application. -/
theorem optimizeStep_swap {students : Students} {t1 t2 t3 : Int}
    {teams : Teams} {best : Swap} {teams2 : Teams}
    (h : optimizeStep students t1 t2 t3 teams = .swap best teams2) :
    (∃ mx mn, best ∈ generate_asymmetric_swaps students teams mx mn) ∧
      teams2 = apply_swap teams best := by
  simp only [optimizeStep] at h
  split at h
  · exact absurd h (by simp)
  · split at h
    · rename_i mx mn hmx hmn
      split at h
      · exact absurd h (by simp)
      · split at h
        · exact absurd h (by simp)
        · split at h
          · exact absurd h (by simp)
          · rename_i best2 hsel
            obtain ⟨rfl, rfl⟩ : best2 = best ∧ apply_swap teams best2 = teams2 := by
              simpa using h
            exact ⟨⟨mx.1, mn.1, select_best_swap_mem hsel⟩, rfl⟩
    · exact absurd h (by simp)

/-- C4: in every run of the optimization loop, no student whose locked
flag is true ever appears among the moved names of a logged swap: every
moved name resolves to a record with `locked = false`. -/
theorem c4_locked_never_moved (students : Students) (t1 t2 t3 : Int)
    (fuel : Nat) (teams : Teams) (log : List Swap) (final : Teams)
    (ex : LoopExit)
    (h : optimizeLoop students t1 t2 t3 fuel teams = (log, final, ex)) :
    ∀ sw ∈ log, ∀ n ∈ sw.students_out ++ sw.students_in,
      ∃ s, findStudent students n = some s ∧ s.locked = false := by
  induction fuel generalizing teams log final ex with
  | zero =>
    simp only [optimizeLoop] at h
    cases h
    intro sw hsw
    exact absurd hsw (by simp)
  | succ fuel ih =>
    simp only [optimizeLoop] at h
    rcases hstep : optimizeStep students t1 t2 t3 teams with ex2 | ⟨best, teams2⟩ <;>
      rw [hstep] at h
    · cases h
      intro sw hsw
      exact absurd hsw (by simp)
    · cases h
      intro sw hsw
      rcases List.mem_cons.mp hsw with rfl | htl
      · obtain ⟨⟨mx, mn, hmem⟩, -⟩ := optimizeStep_swap hstep
        exact generate_swaps_unlocked students teams mx mn sw hmem
      · exact ih teams2 _ _ _ rfl sw htl

unseal List.merge List.mergeSort in
/-- Witness for C4: in the one-swap run on the worked example, the
moved student `S1` resolves to an unlocked record. -/
theorem c4_locked_never_moved_witness :
    ∃ s, findStudent c2_students "S1" = some s ∧ s.locked = false :=
  c4_locked_never_moved c2_students 1 4 4 100 c2_teams
    (optimizeLoop c2_students 1 4 4 100 c2_teams).1
    (optimizeLoop c2_students 1 4 4 100 c2_teams).2.1
    (optimizeLoop c2_students 1 4 4 100 c2_teams).2.2 rfl
    c1w_swap (by decide) "S1" (by decide)

/-- On a non-empty team mapping both extremal teams exist. -/
theorem maxByEp3_isSome (students : Students) {teams : Teams}
    (hne : teams ≠ []) :
    (∃ mx, maxByEp3 (get_team_stats students teams) = some mx) ∧
      ∃ mn, minByEp3 (get_team_stats students teams) = some mn := by
  rcases teams with _ | ⟨p, rest⟩
  · exact absurd rfl hne
  · exact ⟨⟨_, rfl⟩, ⟨_, rfl⟩⟩

/-- An iteration body entered with the priority-3 difference within
target halts converged. -/
theorem step_converged_of_diff {students : Students} {t1 t2 t3 : Int}
    {teams : Teams} (hne : teams ≠ [])
    (hdiff : ep3MaxMinDiff students teams ≤ t1) :
    optimizeStep students t1 t2 t3 teams = .halt .converged := by
  obtain ⟨⟨mx, hmx⟩, ⟨mn, hmn⟩⟩ := maxByEp3_isSome students hne
  have hd2 : mx.2 - mn.2 ≤ t1 := by
    unfold ep3MaxMinDiff at hdiff
    rw [hmx, hmn] at hdiff
    exact hdiff
  simp only [optimizeStep, hmx, hmn, if_pos hd2]
  split <;> rfl

/-- C5: whenever the loop reaches a state whose extremal priority-3
count difference is within the priority-3 target, it stops immediately
as converged with no further swap (even if other spreads exceed their
targets); in particular no swap is ever applied from such a state. -/
theorem c5_priority3_gate (students : Students) (t1 t2 t3 : Int)
    (fuel : Nat) (teams : Teams) (hne : teams ≠ [])
    (hdiff : ep3MaxMinDiff students teams ≤ t1) :
    optimizeLoop students t1 t2 t3 (fuel + 1) teams = ([], teams, .converged) := by
  simp only [optimizeLoop, step_converged_of_diff hne hdiff]

/-- Witness for C5: on the worked example both teams exist and the
priority-3 difference 2 is within the default target 3, so one loop
step stops converged without a swap. -/
theorem c5_priority3_gate_witness :
    optimizeLoop c2_students 3 4 4 1 c2_teams = ([], c2_teams, .converged) :=
  c5_priority3_gate c2_students 3 4 4 0 c2_teams (by decide) (by decide)

/-- A converged halt of the iteration body means one of the two break
conditions held on entry. -/
theorem step_converged_cond {students : Students} {t1 t2 t3 : Int}
    {teams : Teams}
    (h : optimizeStep students t1 t2 t3 teams = .halt .converged) :
    convergedCond students t1 t2 t3 teams := by
  simp only [optimizeStep] at h
  split at h
  · rename_i hc
    exact Or.inl hc
  · split at h
    · rename_i mx mn hmx hmn
      split at h
      · rename_i hd
        exact Or.inr ⟨mx, mn, hmx, hmn, hd⟩
      · split at h
        · simp at h
        · split at h
          · simp at h
          · simp at h
    · simp at h

/-- Either break condition makes the iteration body halt converged. -/
theorem cond_step_converged {students : Students} {t1 t2 t3 : Int}
    {teams : Teams} (h : convergedCond students t1 t2 t3 teams) :
    optimizeStep students t1 t2 t3 teams = .halt .converged := by
  rcases h with hc | ⟨mx, mn, hmx, hmn, hd⟩
  · simp only [optimizeStep]
    rw [if_pos hc]
  · simp only [optimizeStep, hmx, hmn, if_pos hd]
    split <;> rfl

/-- A run that stops converged leaves a final state satisfying one of
the two break conditions. -/
theorem loop_converged_cond {students : Students} {t1 t2 t3 : Int} :
    ∀ (fuel : Nat) (teams : Teams) (log : List Swap) (final : Teams),
      optimizeLoop students t1 t2 t3 fuel teams = (log, final, .converged) →
      convergedCond students t1 t2 t3 final := by
  intro fuel
  induction fuel with
  | zero =>
    intro teams log final h
    simp only [optimizeLoop, Prod.mk.injEq] at h
    exact absurd h.2.2 (by simp)
  | succ fuel ih =>
    intro teams log final h
    simp only [optimizeLoop] at h
    rcases hstep : optimizeStep students t1 t2 t3 teams with ex2 | ⟨best, teams2⟩ <;>
      rw [hstep] at h
    · obtain ⟨-, rfl, rfl⟩ : ([] : List Swap) = log ∧ teams = final ∧
          ex2 = .converged := by simpa using h
      exact step_converged_cond hstep
    · simp only [Prod.mk.injEq] at h
      exact ih teams2 (optimizeLoop students t1 t2 t3 fuel teams2).1 final
        (by
          rw [← h.2.1, ← h.2.2])

/-- C8: re-running the loop, with the same targets and any iteration
budget, on the final state of a run that stopped `CONVERGED` applies
zero swaps and leaves the team mapping unchanged. -/
theorem c8_idempotent_after_converged (students : Students) (t1 t2 t3 : Int)
    (fuel : Nat) (teams : Teams) (log : List Swap) (final : Teams)
    (h : optimizeLoop students t1 t2 t3 fuel teams = (log, final, .converged)) :
    ∀ fuel2 : Nat, (optimizeLoop students t1 t2 t3 fuel2 final).1 = [] ∧
      (optimizeLoop students t1 t2 t3 fuel2 final).2.1 = final := by
  have hcond := loop_converged_cond fuel teams log final h
  intro fuel2
  cases fuel2 with
  | zero => exact ⟨rfl, rfl⟩
  | succ f =>
    have hstep := cond_step_converged hcond
    simp [optimizeLoop, hstep]

/-- Witness for C8: the worked example converges in one step with the
default targets, and a re-run from the final state applies no swap. -/
theorem c8_idempotent_after_converged_witness :
    (optimizeLoop c2_students 3 4 4 7 c2_teams).1 = [] ∧
      (optimizeLoop c2_students 3 4 4 7 c2_teams).2.1 = c2_teams :=
  c8_idempotent_after_converged c2_students 3 4 4 1 c2_teams [] c2_teams
    (by decide) 7

/-- C9: running the loop on an empty team mapping is a benign no-op for
any student mapping and iteration budget: the swap log is empty, the
mapping stays empty, the modelled error exit is not taken, and all four
final spreads are 0. -/
theorem c9_empty_teams_noop (students : Students) (fuel : Nat) :
    (optimizeLoop students default_target_ep3 default_target_gender
        default_target_greek fuel []).1 = [] ∧
      (optimizeLoop students default_target_ep3 default_target_gender
        default_target_greek fuel []).2.1 = [] ∧
      (optimizeLoop students default_target_ep3 default_target_gender
        default_target_greek fuel []).2.2 ≠ LoopExit.failed ∧
      calculate_spreads students [] = ⟨0, 0, 0, 0⟩ := by
  cases fuel with
  | zero =>
    refine ⟨rfl, rfl, ?_, rfl⟩
    simp [optimizeLoop]
  | succ f =>
    have hstep : optimizeStep students default_target_ep3 default_target_gender
        default_target_greek [] = .halt .converged := rfl
    refine ⟨?_, ?_, ?_, rfl⟩ <;> simp [optimizeLoop, hstep]

/-- Lookup on a cons cell of the team mapping. -/
theorem getTeam_cons (k : String) (l : List String) (rest : Teams) (t : String) :
    getTeam ((k, l) :: rest) t = if k == t then l else getTeam rest t := by
  unfold getTeam
  cases h : k == t <;> simp [List.find?, h]

/-- `updTeam` acts entrywise on a cons cell. -/
theorem updTeam_cons (t : String) (f : List String → List String)
    (p : String × List String) (rest : Teams) :
    updTeam t f (p :: rest) =
      (if p.1 == t then (p.1, f p.2) else p) :: updTeam t f rest := rfl

/-- Updating an absent key changes nothing. -/
theorem updTeam_not_mem {t : String} {teams : Teams}
    (h : t ∉ teams.map (fun p => p.1)) (f : List String → List String) :
    updTeam t f teams = teams := by
  induction teams with
  | nil => rfl
  | cons p rest ih =>
    simp only [List.map_cons, List.mem_cons, not_or] at h
    have hk : p.1 ≠ t := fun e => h.1 e.symm
    simp [updTeam_cons, hk, ih h.2]

/-- Updates keep the key list. -/
theorem keys_updTeam (t : String) (f : List String → List String)
    (teams : Teams) :
    (updTeam t f teams).map (fun p => p.1) = teams.map (fun p => p.1) := by
  induction teams with
  | nil => rfl
  | cons p rest ih =>
    by_cases hk : p.1 = t <;> simp [updTeam_cons, hk, ih]

/-- Updating one key does not change lookups of other keys. -/
theorem getTeam_updTeam_other {t t2 : String} (h : t2 ≠ t)
    (f : List String → List String) (teams : Teams) :
    getTeam (updTeam t f teams) t2 = getTeam teams t2 := by
  induction teams with
  | nil => rfl
  | cons p rest ih =>
    by_cases hk : p.1 = t
    · have hk2 : p.1 ≠ t2 := by
        rw [hk]
        exact fun e => h e.symm
      obtain ⟨k, l⟩ := p
      simp only at hk hk2
      have hne2 : t ≠ t2 := fun e => h e.symm
      simp [updTeam_cons, getTeam_cons, hk, hk2, hne2, ih]
    · obtain ⟨k, l⟩ := p
      simp only at hk
      simp only [updTeam_cons]
      rw [if_neg (by simpa using hk)]
      rw [getTeam_cons, getTeam_cons]
      cases hk2 : k == t2 <;> simp [hk2, ih]

/-- Lookup of the updated key under key uniqueness. -/
theorem getTeam_updTeam_self {t : String} {teams : Teams}
    (hk : (teams.map (fun p => p.1)).Nodup)
    (ht : t ∈ teams.map (fun p => p.1)) (f : List String → List String) :
    getTeam (updTeam t f teams) t = f (getTeam teams t) := by
  induction teams with
  | nil => exact absurd ht (by simp)
  | cons p rest ih =>
    simp only [List.map_cons, List.nodup_cons] at hk
    obtain ⟨k, l⟩ := p
    by_cases heq : k = t
    · have hnm : t ∉ rest.map (fun q => q.1) := heq ▸ hk.1
      simp [updTeam_cons, getTeam_cons, heq, updTeam_not_mem hnm f]
    · have hmem : t ∈ rest.map (fun q => q.1) := by
        simp only [List.map_cons, List.mem_cons] at ht
        rcases ht with h1 | h2
        · exact absurd h1.symm heq
        · exact h2
      simp only [updTeam_cons]
      rw [if_neg (by simpa using heq)]
      rw [getTeam_cons, getTeam_cons]
      rw [if_neg (by simpa using heq), if_neg (by simpa using heq)]
      exact ih hk.2 hmem

/-- Updating with the identity changes nothing. -/
theorem updTeam_id (t : String) (teams : Teams) :
    updTeam t (fun l => l) teams = teams := by
  induction teams with
  | nil => rfl
  | cons p rest ih =>
    obtain ⟨k, l⟩ := p
    by_cases hk : k = t <;> simp [updTeam_cons, hk, ih]

/-- Two updates of the same key compose. -/
theorem updTeam_updTeam_same (t : String) (f g : List String → List String)
    (teams : Teams) :
    updTeam t f (updTeam t g teams) = updTeam t (fun l => f (g l)) teams := by
  induction teams with
  | nil => rfl
  | cons p rest ih =>
    obtain ⟨k, l⟩ := p
    by_cases hk : k = t <;>
      simp [updTeam_cons, hk, ih]

/-- Updates of different keys commute. -/
theorem updTeam_comm {t t2 : String} (h : t ≠ t2)
    (f g : List String → List String) (teams : Teams) :
    updTeam t f (updTeam t2 g teams) = updTeam t2 g (updTeam t f teams) := by
  induction teams with
  | nil => rfl
  | cons p rest ih =>
    obtain ⟨k, l⟩ := p
    by_cases hk : k = t
    · have hk2 : k ≠ t2 := hk ▸ h
      simp [updTeam_cons, hk, hk2, h, h.symm, ih]
    · by_cases hk2 : k = t2 <;> simp [updTeam_cons, hk, hk2, h, h.symm, ih]

/-- The guarded-remove loops of `_apply_swap` are an update by
`List.diff` (erase each listed name once, if present). -/
theorem foldl_erase_eq_diff (t : String) (names : List String) :
    ∀ teams : Teams,
      names.foldl (fun acc n => updTeam t (fun l => l.erase n) acc) teams =
        updTeam t (fun l => l.diff names) teams := by
  induction names with
  | nil =>
    intro teams
    simp only [List.foldl_nil]
    have hfun : (fun l : List String => l.diff []) = fun l => l := by
      funext l
      exact List.diff_nil l
    rw [hfun, updTeam_id]
  | cons n ns ih =>
    intro teams
    simp only [List.foldl_cons]
    rw [ih, updTeam_updTeam_same]
    have hstep : (fun l : List String => (l.erase n).diff ns) =
        fun l : List String => l.diff (n :: ns) := by
      funext l
      rw [List.diff_cons]
    rw [hstep]

/-- With distinct source and destination teams, `_apply_swap` is: the
destination list loses the incoming names and gains the outgoing ones,
the source list loses the outgoing names and gains the incoming ones. -/
theorem apply_swap_eq {sw : Swap} (hne : sw.from_team ≠ sw.to_team)
    (teams : Teams) :
    apply_swap teams sw =
      updTeam sw.from_team (fun l => l.diff sw.students_out ++ sw.students_in)
        (updTeam sw.to_team (fun l => l.diff sw.students_in ++ sw.students_out)
          teams) := by
  simp only [apply_swap]
  rw [foldl_erase_eq_diff, foldl_erase_eq_diff]
  rw [updTeam_updTeam_same]
  rw [updTeam_comm (fun e => hne e.symm)
    (fun l => l.diff sw.students_in ++ sw.students_out)
    (fun l => l.diff sw.students_out)]
  rw [updTeam_updTeam_same]

/-- Additive effect of one keyed update on any entrywise weight sum. -/
theorem sumw_updTeam (w : List String → Nat) (f : List String → List String)
    {teams : Teams} {t : String}
    (hk : (teams.map (fun p => p.1)).Nodup)
    (ht : t ∈ teams.map (fun p => p.1)) :
    ((updTeam t f teams).map (fun p => w p.2)).sum + w (getTeam teams t) =
      (teams.map (fun p => w p.2)).sum + w (f (getTeam teams t)) := by
  induction teams with
  | nil => exact absurd ht (by simp)
  | cons p rest ih =>
    simp only [List.map_cons, List.nodup_cons] at hk
    obtain ⟨k, l⟩ := p
    by_cases heq : k = t
    · have hnm : t ∉ rest.map (fun q => q.1) := heq ▸ hk.1
      rw [updTeam_cons]
      rw [if_pos (by simpa using heq)]
      rw [updTeam_not_mem hnm f]
      simp [getTeam_cons, heq]
      omega
    · have hmem : t ∈ rest.map (fun q => q.1) := by
        simp only [List.map_cons, List.mem_cons] at ht
        rcases ht with h1 | h2
        · exact absurd h1.symm heq
        · exact h2
      rw [updTeam_cons]
      rw [if_neg (by simpa using heq)]
      rw [getTeam_cons, if_neg (by simpa using heq)]
      have := ih hk.2 hmem
      simp only [List.map_cons, List.sum_cons]
      omega

/-- Counting inside a diff by distinct, present names. -/
theorem count_diff_add {xs l : List String} (hnd : xs.Nodup)
    (hsub : ∀ a ∈ xs, a ∈ l) (n : String) :
    (l.diff xs).count n + xs.count n = l.count n := by
  induction xs generalizing l with
  | nil => simp
  | cons a as ih =>
    rw [List.diff_cons]
    rw [List.nodup_cons] at hnd
    have hal : a ∈ l := hsub a (List.mem_cons_self a as)
    have hsub2 : ∀ x ∈ as, x ∈ l.erase a := by
      intro x hx
      have hxa : x ≠ a := fun e => hnd.1 (e ▸ hx)
      exact (List.mem_erase_of_ne hxa).mpr (hsub x (List.mem_cons.mpr (Or.inr hx)))
    have hrec := ih hnd.2 hsub2
    rw [List.count_cons]
    rw [List.count_erase] at hrec
    by_cases han : a = n
    · subst han
      have hpos : 0 < l.count a := List.count_pos_iff.mpr hal
      simp at hrec ⊢
      omega
    · have : (a == n) = false := by simpa using han
      rw [this] at hrec ⊢
      simp at hrec ⊢
      omega

/-- Length of a diff by distinct, present names. -/
theorem length_diff_add {xs l : List String} (hnd : xs.Nodup)
    (hsub : ∀ a ∈ xs, a ∈ l) :
    (l.diff xs).length + xs.length = l.length := by
  induction xs generalizing l with
  | nil => simp
  | cons a as ih =>
    rw [List.diff_cons]
    rw [List.nodup_cons] at hnd
    have hal : a ∈ l := hsub a (List.mem_cons_self a as)
    have hsub2 : ∀ x ∈ as, x ∈ l.erase a := by
      intro x hx
      have hxa : x ≠ a := fun e => hnd.1 (e ▸ hx)
      exact (List.mem_erase_of_ne hxa).mpr (hsub x (List.mem_cons.mpr (Or.inr hx)))
    have hrec := ih hnd.2 hsub2
    have hlen : (l.erase a).length = l.length - 1 := List.length_erase_of_mem hal
    have hpos : 0 < l.length := List.length_pos_of_mem hal
    simp only [List.length_cons]
    omega

/-- Membership multiplicity as an entrywise sum. -/
theorem occ_eq_sum (n : String) (teams : Teams) :
    occ n teams = (teams.map (fun p => p.2.count n)).sum := by
  unfold occ allMembers
  rw [List.count_flatMap]
  rfl

/-- Total member count as an entrywise sum. -/
theorem totalCount_eq_sum (teams : Teams) :
    totalCount teams = (teams.map (fun p => p.2.length)).sum := by
  unfold totalCount allMembers
  rw [List.length_flatMap]
  rfl

/-- A generator-shaped swap application permutes membership slots: the
multiplicity of every name is unchanged. -/
theorem occ_apply_swap {teams : Teams} {sw : Swap}
    (hk : (teams.map (fun p => p.1)).Nodup)
    (hft : sw.from_team ∈ teams.map (fun p => p.1))
    (htt : sw.to_team ∈ teams.map (fun p => p.1))
    (hne : sw.from_team ≠ sw.to_team)
    (ho : sw.students_out.Nodup) (hi : sw.students_in.Nodup)
    (hos : ∀ a ∈ sw.students_out, a ∈ getTeam teams sw.from_team)
    (his : ∀ a ∈ sw.students_in, a ∈ getTeam teams sw.to_team) :
    ∀ n, occ n (apply_swap teams sw) = occ n teams := by
  intro n
  rw [apply_swap_eq hne]
  have hkmid : ((updTeam sw.to_team
      (fun l => l.diff sw.students_in ++ sw.students_out) teams).map
        (fun p => p.1)).Nodup := by
    rw [keys_updTeam]
    exact hk
  have hftmid : sw.from_team ∈ (updTeam sw.to_team
      (fun l => l.diff sw.students_in ++ sw.students_out) teams).map
        (fun p => p.1) := by
    rw [keys_updTeam]
    exact hft
  have h1 := sumw_updTeam (fun l => l.count n)
    (fun l => l.diff sw.students_out ++ sw.students_in) hkmid hftmid
  have h2 := sumw_updTeam (fun l => l.count n)
    (fun l => l.diff sw.students_in ++ sw.students_out) hk htt
  have hg : getTeam (updTeam sw.to_team
      (fun l => l.diff sw.students_in ++ sw.students_out) teams)
        sw.from_team = getTeam teams sw.from_team :=
    getTeam_updTeam_other hne _ teams
  rw [hg] at h1
  simp only at h1 h2
  have hF : ((getTeam teams sw.from_team).diff sw.students_out ++
      sw.students_in).count n + sw.students_out.count n =
        (getTeam teams sw.from_team).count n + sw.students_in.count n := by
    rw [List.count_append]
    have := count_diff_add ho hos n
    omega
  have hG : ((getTeam teams sw.to_team).diff sw.students_in ++
      sw.students_out).count n + sw.students_in.count n =
        (getTeam teams sw.to_team).count n + sw.students_out.count n := by
    rw [List.count_append]
    have := count_diff_add hi his n
    omega
  rw [occ_eq_sum, occ_eq_sum]
  omega

/-- C6: applying a generator-shaped swap (outgoing names distinct and
in the source team, incoming names distinct and in the destination
team, distinct teams present in a duplicate-free mapping) preserves the
total student count and the invariant that every identity occupies at
most one membership slot. -/
theorem c6_apply_swap_invariants (teams : Teams) (sw : Swap)
    (hk : (teams.map (fun p => p.1)).Nodup)
    (hft : sw.from_team ∈ teams.map (fun p => p.1))
    (htt : sw.to_team ∈ teams.map (fun p => p.1))
    (hne : sw.from_team ≠ sw.to_team)
    (ho : sw.students_out.Nodup) (hi : sw.students_in.Nodup)
    (hos : ∀ a ∈ sw.students_out, a ∈ getTeam teams sw.from_team)
    (his : ∀ a ∈ sw.students_in, a ∈ getTeam teams sw.to_team)
    (hnd : (allMembers teams).Nodup) :
    totalCount (apply_swap teams sw) = totalCount teams ∧
      (allMembers (apply_swap teams sw)).Nodup := by
  constructor
  · rw [apply_swap_eq hne]
    have hkmid : ((updTeam sw.to_team
        (fun l => l.diff sw.students_in ++ sw.students_out) teams).map
          (fun p => p.1)).Nodup := by
      rw [keys_updTeam]
      exact hk
    have hftmid : sw.from_team ∈ (updTeam sw.to_team
        (fun l => l.diff sw.students_in ++ sw.students_out) teams).map
          (fun p => p.1) := by
      rw [keys_updTeam]
      exact hft
    have h1 := sumw_updTeam (fun l => l.length)
      (fun l => l.diff sw.students_out ++ sw.students_in) hkmid hftmid
    have h2 := sumw_updTeam (fun l => l.length)
      (fun l => l.diff sw.students_in ++ sw.students_out) hk htt
    have hg : getTeam (updTeam sw.to_team
        (fun l => l.diff sw.students_in ++ sw.students_out) teams)
          sw.from_team = getTeam teams sw.from_team :=
      getTeam_updTeam_other hne _ teams
    rw [hg] at h1
    simp only at h1 h2
    have hF : ((getTeam teams sw.from_team).diff sw.students_out ++
        sw.students_in).length + sw.students_out.length =
          (getTeam teams sw.from_team).length + sw.students_in.length := by
      rw [List.length_append]
      have := length_diff_add ho hos
      omega
    have hG : ((getTeam teams sw.to_team).diff sw.students_in ++
        sw.students_out).length + sw.students_in.length =
          (getTeam teams sw.to_team).length + sw.students_out.length := by
      rw [List.length_append]
      have := length_diff_add hi his
      omega
    rw [totalCount_eq_sum, totalCount_eq_sum]
    omega
  · rw [List.nodup_iff_count_le_one]
    intro a
    have hocc := occ_apply_swap hk hft htt hne ho hi hos his a
    unfold occ at hocc
    rw [hocc]
    exact List.nodup_iff_count_le_one.mp hnd a

/-- Witness for C6: the concrete swap keeps the total count and the
one-slot-per-identity invariant. -/
theorem c6_apply_swap_invariants_witness :
    totalCount (apply_swap c6_teams c6w_swap) = totalCount c6_teams ∧
      (allMembers (apply_swap c6_teams c6w_swap)).Nodup :=
  c6_apply_swap_invariants c6_teams c6w_swap (by decide) (by decide)
    (by decide) (by decide) (by decide) (by decide) (by decide) (by decide)
    (by decide)

/-- C10: swap application only rewrites the member lists of the source
and destination teams: the student records are untouched, the key list
is unchanged, and every other team's member list reads back identically. -/
theorem c10_apply_swap_frame (st : ProcState) (sw : Swap) :
    (apply_swap_state st sw).students = st.students ∧
      ((apply_swap_state st sw).teams).map (fun p => p.1) =
        st.teams.map (fun p => p.1) ∧
      ∀ t, t ≠ sw.from_team → t ≠ sw.to_team →
        getTeam (apply_swap_state st sw).teams t = getTeam st.teams t := by
  refine ⟨rfl, ?_, ?_⟩
  · show (apply_swap st.teams sw).map _ = _
    simp only [apply_swap]
    rw [foldl_erase_eq_diff, foldl_erase_eq_diff]
    rw [keys_updTeam, keys_updTeam, keys_updTeam, keys_updTeam]
  · intro t h1 h2
    show getTeam (apply_swap st.teams sw) t = _
    simp only [apply_swap]
    rw [foldl_erase_eq_diff, foldl_erase_eq_diff]
    rw [getTeam_updTeam_other h1, getTeam_updTeam_other h2,
      getTeam_updTeam_other h2, getTeam_updTeam_other h1]

/-- Witness for C10: team `C` is untouched and the student mapping is
identical after applying the concrete swap. -/
theorem c10_apply_swap_frame_witness :
    (apply_swap_state c10_st c6w_swap).students = c10_st.students ∧
      getTeam (apply_swap_state c10_st c6w_swap).teams "C" =
        getTeam c10_st.teams "C" :=
  ⟨(c10_apply_swap_frame c10_st c6w_swap).1,
   (c10_apply_swap_frame c10_st c6w_swap).2.2 "C" (by decide) (by decide)⟩
